import Mathlib

/-!
Shallow embedding of the wccc message deduplication and certificate-matching
core: the SQL query set over `wechat_messages` (classification by substring
filters on `type`, window-function deduplication by the
(`original_info`, `member_wxid`) fingerprint, per-listing supply availability,
aggregate per-tag match statistics with RANK()), and the parameter handling of
the Next.js API routes.
-/

namespace Wccc

/-- One row of `wechat_messages`, restricted to the columns the verified
queries read: `original_info`, `member_wxid`, `type`, `split_certificates`,
`created_at`.  An absent (`NULL`) certificate array is modelled as `[]`,
matching the SQL guards `IS NOT NULL AND != '{}'::text[]`. -/
structure ListingRecord where
  originalInfo : String
  memberId : String
  type : String
  splitCertificates : List String
  createdAt : Nat
deriving DecidableEq

/-- Substring containment, the embedding of SQL `s LIKE '%pat%'`. -/
def containsStr (s pat : String) : Bool :=
  s.toList.tails.any fun t => pat.toList.isPrefixOf t

/-- Demand filter of the SQL queries:
`type LIKE '%收%' OR '%接%' OR '%招聘%' OR '%寻%'`. -/
def isDemandType (t : String) : Bool :=
  containsStr t "收" || containsStr t "接" || containsStr t "招聘" || containsStr t "寻"

/-- Supply filter of the SQL queries: `type LIKE '%出%'`. -/
def isSupplyType (t : String) : Bool :=
  containsStr t "出"

/-- The "other" filter (third query of
`receive_messages_with_available_certificates.sql`): `type` matches none of
the five markers. -/
def isOtherType (t : String) : Bool :=
  !containsStr t "收" && !containsStr t "接" && !containsStr t "招聘" &&
    !containsStr t "寻" && !containsStr t "出"

/-- The deduplication key: `PARTITION BY original_info, member_wxid`. -/
def fingerprint (r : ListingRecord) : String × String :=
  (r.originalInfo, r.memberId)

/-- Fold selecting the most recent record (`ORDER BY created_at DESC ... rn = 1`);
on equal timestamps the earlier-scanned record wins, a deterministic choice for
the tie the SQL leaves unspecified. -/
def latestIn (a : ListingRecord) : List ListingRecord → ListingRecord
  | [] => a
  | b :: l => latestIn (if b.createdAt > a.createdAt then b else a) l

/-- Most recent record of a nonempty list. -/
def pickLatest : List ListingRecord → Option ListingRecord
  | [] => none
  | a :: l => some (latestIn a l)

/-- The partition of `rs` with fingerprint `fp`. -/
def classIn (rs : List ListingRecord) (fp : String × String) : List ListingRecord :=
  rs.filter fun x => decide (fingerprint x = fp)

/-- The window-function deduplication idiom
`ROW_NUMBER() OVER (PARTITION BY original_info, member_wxid ORDER BY created_at DESC)`
with `COUNT(*) OVER (...)` carried as `duplicate_count`: one row per distinct
fingerprint, pairing the partition's most recent record with the partition
size. -/
def dedupe (rs : List ListingRecord) : List (ListingRecord × Nat) :=
  ((rs.map fingerprint).dedup).filterMap fun fp =>
    (pickLatest (classIn rs fp)).map fun rep => (rep, (classIn rs fp).length)

theorem latestIn_mem (l : List ListingRecord) : ∀ a, latestIn a l ∈ a :: l := by
  induction l with
  | nil => intro a; simp [latestIn]
  | cons b l ih =>
    intro a
    simp only [latestIn]
    have hc : (if b.createdAt > a.createdAt then b else a) = b ∨
        (if b.createdAt > a.createdAt then b else a) = a := by
      split
      · exact Or.inl rfl
      · exact Or.inr rfl
    rcases hc with hc | hc
    · rw [hc]
      have h := ih b
      simp only [List.mem_cons] at h ⊢
      tauto
    · rw [hc]
      have h := ih a
      simp only [List.mem_cons] at h ⊢
      tauto

theorem latestIn_max (l : List ListingRecord) :
    ∀ a, ∀ x ∈ a :: l, x.createdAt ≤ (latestIn a l).createdAt := by
  induction l with
  | nil => intro a x hx; simp at hx; simp [latestIn, hx]
  | cons b l ih =>
    intro a x hx
    simp only [latestIn]
    have hle : a.createdAt ≤ (if b.createdAt > a.createdAt then b else a).createdAt ∧
        b.createdAt ≤ (if b.createdAt > a.createdAt then b else a).createdAt := by
      split <;> omega
    simp only [List.mem_cons] at hx
    rcases hx with hx | hx | hx
    · subst hx
      exact le_trans hle.1 (ih _ _ (List.mem_cons_self _ _))
    · subst hx
      exact le_trans hle.2 (ih _ _ (List.mem_cons_self _ _))
    · exact ih _ _ (List.mem_cons_of_mem _ hx)

theorem pickLatest_eq_some {l : List ListingRecord} {r : ListingRecord}
    (h : pickLatest l = some r) :
    r ∈ l ∧ ∀ x ∈ l, x.createdAt ≤ r.createdAt := by
  cases l with
  | nil => simp [pickLatest] at h
  | cons a l =>
    simp only [pickLatest, Option.some.injEq] at h
    subst h
    exact ⟨latestIn_mem l a, latestIn_max l a⟩

theorem mem_classIn {rs : List ListingRecord} {fp : String × String} {x : ListingRecord} :
    x ∈ classIn rs fp ↔ x ∈ rs ∧ fingerprint x = fp := by
  simp [classIn, List.mem_filter]

theorem classIn_ne_nil {rs : List ListingRecord} {fp : String × String}
    (h : fp ∈ rs.map fingerprint) : classIn rs fp ≠ [] := by
  rcases List.mem_map.1 h with ⟨r, hr, hfp⟩
  intro hnil
  have hmem : r ∈ classIn rs fp := mem_classIn.2 ⟨hr, hfp⟩
  rw [hnil] at hmem
  exact (List.not_mem_nil r) hmem

theorem filterMap_fps (rs : List ListingRecord) :
    ∀ l : List (String × String), (∀ fp ∈ l, fp ∈ rs.map fingerprint) →
      ((l.filterMap fun fp =>
          (pickLatest (classIn rs fp)).map fun rep => (rep, (classIn rs fp).length)).map
        fun p => fingerprint p.1) = l := by
  intro l
  induction l with
  | nil => intro _; simp
  | cons fp l ih =>
    intro h
    have hne : classIn rs fp ≠ [] := classIn_ne_nil (h fp (List.mem_cons_self _ _))
    obtain ⟨a, t, ht⟩ : ∃ a t, classIn rs fp = a :: t := by
      cases hcl : classIn rs fp with
      | nil => exact absurd hcl hne
      | cons a t => exact ⟨a, t, rfl⟩
    have hpick : pickLatest (classIn rs fp) = some (latestIn a t) := by
      rw [ht]; rfl
    have hrep : fingerprint (latestIn a t) = fp := by
      have : latestIn a t ∈ classIn rs fp := by rw [ht]; exact latestIn_mem t a
      exact (mem_classIn.1 this).2
    have hfm : ((pickLatest (classIn rs fp)).map fun rep => (rep, (classIn rs fp).length)) =
        some (latestIn a t, (classIn rs fp).length) := by rw [hpick]; rfl
    rw [List.filterMap_cons, hfm]
    rw [List.map_cons, hrep, ih fun x hx => h x (List.mem_cons_of_mem _ hx)]

/-- The fingerprints of the dedupe output are exactly the distinct input
fingerprints, in order. -/
theorem dedupe_fps (rs : List ListingRecord) :
    ((dedupe rs).map fun p => fingerprint p.1) = (rs.map fingerprint).dedup :=
  filterMap_fps rs _ fun _ h => List.mem_dedup.1 h

/-- Per-element facts about the dedupe output: the representative is a member
of the input with maximal `createdAt` in its fingerprint class, and the carried
count is the class size. -/
theorem dedupe_mem {rs : List ListingRecord} {p : ListingRecord × Nat}
    (hp : p ∈ dedupe rs) :
    p.1 ∈ rs ∧
      (∀ x ∈ rs, fingerprint x = fingerprint p.1 → x.createdAt ≤ p.1.createdAt) ∧
      p.2 = (classIn rs (fingerprint p.1)).length := by
  rcases List.mem_filterMap.1 hp with ⟨fp, _, hg⟩
  rcases Option.map_eq_some'.1 hg with ⟨rep, hpick, hpair⟩
  rcases pickLatest_eq_some hpick with ⟨hmem, hmax⟩
  rcases mem_classIn.1 hmem with ⟨hrs, hfp⟩
  have h1 : p.1 = rep := by rw [← hpair]
  have h2 : p.2 = (classIn rs fp).length := by rw [← hpair]
  have hfpp : fingerprint p.1 = fp := by rw [h1, hfp]
  refine ⟨by rw [h1]; exact hrs, ?_, by rw [h2, hfpp]⟩
  intro x hx hfx
  have : x ∈ classIn rs fp := mem_classIn.2 ⟨hx, by rw [hfx, hfpp]⟩
  rw [h1]; exact hmax x this

theorem filterMap_congr_mem {α β : Type} {f g : α → Option β} :
    ∀ {l : List α}, (∀ a ∈ l, f a = g a) → l.filterMap f = l.filterMap g := by
  intro l
  induction l with
  | nil => intro _; rfl
  | cons a t ih =>
    intro h
    rw [List.filterMap_cons, List.filterMap_cons, h a (List.mem_cons_self _ _),
      ih fun x hx => h x (List.mem_cons_of_mem _ hx)]

theorem classIn_cons {r : ListingRecord} {t : List ListingRecord} {fp : String × String} :
    classIn (r :: t) fp =
      if fingerprint r = fp then r :: classIn t fp else classIn t fp := by
  simp only [classIn, List.filter_cons]
  by_cases h : fingerprint r = fp
  · rw [if_pos (decide_eq_true h), if_pos h]
  · rw [if_neg (by simp [h]), if_neg h]

theorem classIn_eq_nil {t : List ListingRecord} {fp : String × String}
    (h : fp ∉ t.map fingerprint) : classIn t fp = [] := by
  rw [List.eq_nil_iff_forall_not_mem]
  intro x hx
  rcases mem_classIn.1 hx with ⟨hxt, hfp⟩
  exact h (List.mem_map.2 ⟨x, hxt, hfp⟩)

/-- On a list whose fingerprints are pairwise distinct, dedupe is the identity
up to pairing each record with count 1. -/
theorem dedupe_of_nodup :
    ∀ {l : List ListingRecord}, (l.map fingerprint).Nodup →
      dedupe l = l.map fun r => (r, 1) := by
  intro l h
  unfold dedupe
  rw [List.Nodup.dedup h]
  induction l with
  | nil => rfl
  | cons r t ih =>
    rw [List.map_cons] at h
    rcases List.nodup_cons.1 h with ⟨hnm, hnd⟩
    have htail : classIn t (fingerprint r) = [] := classIn_eq_nil hnm
    have hhead : classIn (r :: t) (fingerprint r) = [r] := by
      rw [classIn_cons, if_pos rfl, htail]
    rw [List.map_cons, List.filterMap_cons]
    have hsome : ((pickLatest (classIn (r :: t) (fingerprint r))).map
        fun rep => (rep, (classIn (r :: t) (fingerprint r)).length)) = some (r, 1) := by
      rw [hhead]; rfl
    rw [hsome]
    have hcongr : (t.map fingerprint).filterMap (fun fp =>
          (pickLatest (classIn (r :: t) fp)).map fun rep => (rep, (classIn (r :: t) fp).length)) =
        (t.map fingerprint).filterMap (fun fp =>
          (pickLatest (classIn t fp)).map fun rep => (rep, (classIn t fp).length)) := by
      apply filterMap_congr_mem
      intro fp hfp
      have hne : fingerprint r ≠ fp := fun hc => hnm (hc ▸ hfp)
      rw [classIn_cons, if_neg hne]
    rw [hcongr, ih hnd]
    rfl

theorem dedupe_reps_fps_nodup (rs : List ListingRecord) :
    (((dedupe rs).map Prod.fst).map fingerprint).Nodup := by
  rw [List.map_map]
  rw [show (fingerprint ∘ Prod.fst) = (fun p : ListingRecord × Nat => fingerprint p.1) from rfl,
    dedupe_fps rs]
  exact List.nodup_dedup _

/-- Scenario 1 record: text "A", poster "x", timestamp 1. -/
def recA1 : ListingRecord :=
  { originalInfo := "A", memberId := "x", type := "寻一建",
    splitCertificates := ["一级建造师"], createdAt := 1 }

/-- Scenario 1 record: same text and poster, timestamp 2. -/
def recA2 : ListingRecord :=
  { originalInfo := "A", memberId := "x", type := "寻一建",
    splitCertificates := ["一级建造师"], createdAt := 2 }

/-- C1: dedupe returns exactly one output row per distinct fingerprint (its
output fingerprints are exactly the distinct input fingerprints); each
representative is a member of its equivalence class with maximal `createdAt`,
and its carried count is the class cardinality.  On Scenario 1's two records
(same text "A" and poster "x", timestamps 1 and 2) it yields the single
representative with timestamp 2 and repeat count 2. -/
theorem C1_dedupe_partition (rs : List ListingRecord) :
    ((dedupe rs).map fun p => fingerprint p.1) = (rs.map fingerprint).dedup
    ∧ (∀ p ∈ dedupe rs, p.1 ∈ rs
        ∧ (∀ x ∈ rs, fingerprint x = fingerprint p.1 → x.createdAt ≤ p.1.createdAt)
        ∧ p.2 = (classIn rs (fingerprint p.1)).length)
    ∧ dedupe [recA1, recA2] = [(recA2, 2)] := by
  refine ⟨dedupe_fps rs, fun p hp => dedupe_mem hp, ?_⟩
  decide

theorem C1_witness :
    dedupe [recA1, recA2] = [(recA2, 2)]
    ∧ (recA2, 2).1 ∈ [recA1, recA2]
    ∧ (recA2, 2).2 = (classIn [recA1, recA2] (fingerprint (recA2, 2).1)).length := by
  have h := C1_dedupe_partition [recA1, recA2]
  refine ⟨h.2.2, ?_, ?_⟩
  · exact (h.2.1 (recA2, 2) (by rw [h.2.2]; exact List.mem_cons_self _ _)).1
  · exact (h.2.1 (recA2, 2) (by rw [h.2.2]; exact List.mem_cons_self _ _)).2.2

/-- C8: dedupe is idempotent: re-deduplicating the representatives of a
previous dedupe returns each representative unchanged as the sole member of
its class (repeat count 1), so the representative set is preserved. -/
theorem C8_dedupe_idempotent (rs : List ListingRecord) :
    dedupe ((dedupe rs).map Prod.fst) = ((dedupe rs).map Prod.fst).map (fun r => (r, 1))
    ∧ (dedupe ((dedupe rs).map Prod.fst)).map Prod.fst = (dedupe rs).map Prod.fst := by
  have h := dedupe_of_nodup (dedupe_reps_fps_nodup rs)
  refine ⟨h, ?_⟩
  rw [h, List.map_map]
  simp

theorem C8_witness :
    dedupe ((dedupe [recA1, recA2]).map Prod.fst) =
      ((dedupe [recA1, recA2]).map Prod.fst).map (fun r => (r, 1)) :=
  (C8_dedupe_idempotent [recA1, recA2]).1

/-- `supply_messages` of `receive_messages_with_supply_stats.sql`:
`type LIKE '%出%' AND split_certificates IS NOT NULL AND != '{}'::text[]`,
applied before deduplication. -/
def supplyMessages (rs : List ListingRecord) : List ListingRecord :=
  rs.filter fun r => isSupplyType r.type && !r.splitCertificates.isEmpty

/-- `deduplicated_supply`: the representatives of the filtered supply rows. -/
def deduplicated_supply (rs : List ListingRecord) : List ListingRecord :=
  (dedupe (supplyMessages rs)).map Prod.fst

/-- `ranked_messages` of `receive_messages_with_supply_stats.sql`: the demand
("收") rows, with no certificate condition. -/
def receive_messages (rs : List ListingRecord) : List ListingRecord :=
  rs.filter fun r => isDemandType r.type

/-- The deduplicated demand rows (`rn = 1`). -/
def final_receive (rs : List ListingRecord) : List ListingRecord :=
  (dedupe (receive_messages rs)).map Prod.fst

/-- A record whose `type` contains both the demand marker 收 and the supply
marker 出. -/
def recBoth : ListingRecord :=
  { originalInfo := "B", memberId := "y", type := "收出",
    splitCertificates := ["B证"], createdAt := 1 }

/-- C2 counterexample: the record with type "收出" is a representative in the
demand result set AND in the supply result set of
`receive_messages_with_supply_stats.sql` — the claim that it "appears only in
the demand result set, never also in the supply result set" is false: the two
filters are independent and no demand-before-supply check exists. -/
theorem C2_counterexample :
    final_receive [recBoth] = [recBoth] ∧ deduplicated_supply [recBoth] = [recBoth] := by
  constructor <;> decide

/-- C2 amended: classification is by two independent substring filters with no
exclusivity: a record is in the demand rows iff its `type` contains one of
收/接/招聘/寻, in the (supply-stats) supply rows iff its `type` contains 出 and
its certificate array is non-empty, and the "other" query selects exactly the
records whose `type` matches neither the demand nor the supply markers. -/
theorem C2_filters (rs : List ListingRecord) (r : ListingRecord) :
    (r ∈ receive_messages rs ↔ r ∈ rs ∧ isDemandType r.type = true)
    ∧ (r ∈ supplyMessages rs ↔
        r ∈ rs ∧ isSupplyType r.type = true ∧ r.splitCertificates ≠ [])
    ∧ (isOtherType r.type = true ↔
        (isDemandType r.type = false ∧ isSupplyType r.type = false)) := by
  refine ⟨?_, ?_, ?_⟩
  · simp [receive_messages, List.mem_filter]
  · simp only [supplyMessages, List.mem_filter, Bool.and_eq_true]
    constructor
    · rintro ⟨h1, h2, h3⟩
      refine ⟨h1, h2, ?_⟩
      intro hc
      rw [hc] at h3
      exact absurd h3 (by decide)
    · rintro ⟨h1, h2, h3⟩
      refine ⟨h1, h2, ?_⟩
      cases hl : r.splitCertificates with
      | nil => exact absurd hl h3
      | cons a t => rfl
  · cases h1 : containsStr r.type "收" <;> cases h2 : containsStr r.type "接" <;>
      cases h3 : containsStr r.type "招聘" <;> cases h4 : containsStr r.type "寻" <;>
      cases h5 : containsStr r.type "出" <;>
      simp [isOtherType, isDemandType, isSupplyType, h1, h2, h3, h4, h5]

theorem C2_witness :
    recBoth ∈ receive_messages [recBoth] ∧ recBoth ∈ supplyMessages [recBoth] :=
  ⟨(C2_filters [recBoth] recBoth).1.2 ⟨List.mem_cons_self _ _, by decide⟩,
   (C2_filters [recBoth] recBoth).2.1.2 ⟨List.mem_cons_self _ _, by decide, by decide⟩⟩

/-- Supply record: newer (timestamp 2) but with an empty certificate array. -/
def recS1 : ListingRecord :=
  { originalInfo := "S", memberId := "z", type := "出",
    splitCertificates := [], createdAt := 2 }

/-- Supply record: older (timestamp 1), same fingerprint as `recS1`, with a
non-empty certificate array. -/
def recS2 : ListingRecord :=
  { originalInfo := "S", memberId := "z", type := "出",
    splitCertificates := ["B证"], createdAt := 1 }

/-- C10: in `receive_messages_with_supply_stats.sql` the empty-certificate
supply rows are removed before fingerprint deduplication, so every supply
representative has a non-empty certificate array and is the most recent record
among the non-empty-certificate members of its class only; on `recS1`/`recS2`
(same fingerprint, the newer one empty) this picks the older `recS2`, while
plain type-only deduplication picks `recS1` — the two representatives differ. -/
theorem C10_supply_filter_before_dedupe (rs : List ListingRecord) :
    (∀ s ∈ deduplicated_supply rs,
        s ∈ rs ∧ isSupplyType s.type = true ∧ s.splitCertificates ≠ []
        ∧ ∀ x ∈ supplyMessages rs, fingerprint x = fingerprint s →
            x.createdAt ≤ s.createdAt)
    ∧ deduplicated_supply [recS1, recS2] = [recS2]
    ∧ (dedupe ([recS1, recS2].filter fun r => isSupplyType r.type)).map Prod.fst = [recS1] := by
  refine ⟨?_, by decide, by decide⟩
  intro s hs
  rcases List.mem_map.1 hs with ⟨p, hp, hps⟩
  have hd := dedupe_mem hp
  have hmem : s ∈ supplyMessages rs := by rw [← hps]; exact hd.1
  have hflt := (C2_filters rs s).2.1.1 hmem
  refine ⟨hflt.1, hflt.2.1, hflt.2.2, ?_⟩
  intro x hx hfx
  have := hd.2.1 x hx (by rw [hfx, hps])
  rw [← hps]; exact this

theorem C10_witness :
    recS2 ∈ [recS1, recS2] ∧ recS2.splitCertificates ≠ []
    ∧ deduplicated_supply [recS1, recS2] = [recS2] := by
  have h := C10_supply_filter_before_dedupe [recS1, recS2]
  have hm : recS2 ∈ deduplicated_supply [recS1, recS2] := by
    rw [h.2.1]; exact List.mem_cons_self _ _
  exact ⟨(h.1 recS2 hm).1, (h.1 recS2 hm).2.2.1, h.2.1⟩

/-- All certificate occurrences of the deduplicated supply rows:
`FROM deduplicated_supply, unnest(split_certificates)`. -/
def allSupplyCerts (rs : List ListingRecord) : List String :=
  (deduplicated_supply rs).flatMap fun s => s.splitCertificates

/-- `supply_counts.supply_count`: the number of unnested rows for a
certificate, i.e. its number of occurrences across the deduplicated supply. -/
def supply_count (rs : List ListingRecord) (c : String) : Nat :=
  (allSupplyCerts rs).count c

/-- The distinct supply-market certificates that occur in the demand row's own
array: `sc.cert = ANY(rm.split_certificates)` over the `supply_counts` keys. -/
def matchingCerts (rs : List ListingRecord) (d : ListingRecord) : List String :=
  ((allSupplyCerts rs).dedup).filter fun c => decide (c ∈ d.splitCertificates)

/-- `total_supply_count`: `SUM(sc.supply_count)` over the matching
certificates (`COALESCE(..., 0)` when none match). -/
def total_supply_count (rs : List ListingRecord) (d : ListingRecord) : Nat :=
  ((matchingCerts rs d).map (supply_count rs)).sum

/-- `available_certificates_count`: `COUNT(DISTINCT sc.cert)` over the
matching certificates. -/
def available_certificates_count (rs : List ListingRecord) (d : ListingRecord) : Nat :=
  (matchingCerts rs d).length

/-- The number of deduplicated supply representatives whose certificate array
carries `c`. -/
def supplyRepsCarrying (rs : List ListingRecord) (c : String) : Nat :=
  (deduplicated_supply rs).countP fun s => decide (c ∈ s.splitCertificates)

theorem length_le_sum_map {α : Type} (f : α → Nat) :
    ∀ L : List α, (∀ c ∈ L, 1 ≤ f c) →
      L.length ≤ (L.map f).sum ∧ ((L.map f).sum = L.length ↔ ∀ c ∈ L, f c = 1) := by
  intro L
  induction L with
  | nil => intro _; simp
  | cons a t ih =>
    intro h
    have ha := h a (List.mem_cons_self _ _)
    have ht := ih fun c hc => h c (List.mem_cons_of_mem _ hc)
    simp only [List.map_cons, List.sum_cons, List.length_cons]
    refine ⟨by omega, ?_, ?_⟩
    · intro he
      have hfa : f a = 1 ∧ (t.map f).sum = t.length := by
        have := ht.1
        omega
      intro c hc
      rcases List.mem_cons.1 hc with rfl | hc
      · exact hfa.1
      · exact (ht.2.mp hfa.2) c hc
    · intro hall
      have h1 : f a = 1 := hall a (List.mem_cons_self _ _)
      have h2 : (t.map f).sum = t.length :=
        ht.2.mpr fun c hc => hall c (List.mem_cons_of_mem _ hc)
      omega

theorem count_flatMap_eq_countP (c : String) :
    ∀ L : List ListingRecord, (∀ s ∈ L, s.splitCertificates.Nodup) →
      (L.flatMap fun s => s.splitCertificates).count c =
        L.countP fun s => decide (c ∈ s.splitCertificates) := by
  intro L
  induction L with
  | nil => intro _; rfl
  | cons a t ih =>
    intro h
    rw [List.flatMap_cons, List.count_append, List.countP_cons,
      ih fun s hs => h s (List.mem_cons_of_mem _ hs)]
    by_cases hc : c ∈ a.splitCertificates
    · rw [List.count_eq_one_of_mem (h a (List.mem_cons_self _ _)) hc, if_pos (by simp [hc])]
      omega
    · rw [List.count_eq_zero_of_not_mem hc, if_neg (by simp [hc])]
      omega

theorem mem_deduplicated_supply {rs : List ListingRecord} {s : ListingRecord}
    (hs : s ∈ deduplicated_supply rs) : s ∈ rs := by
  rcases List.mem_map.1 hs with ⟨p, hp, hps⟩
  have h1 : p.1 ∈ supplyMessages rs := (dedupe_mem hp).1
  have h2 := ((C2_filters rs p.1).2.1.1 h1).1
  rw [← hps]; exact h2

theorem supply_count_eq_reps {rs : List ListingRecord}
    (hnd : ∀ r ∈ rs, r.splitCertificates.Nodup) (c : String) :
    supply_count rs c = supplyRepsCarrying rs c :=
  count_flatMap_eq_countP c (deduplicated_supply rs)
    fun s hs => hnd s (mem_deduplicated_supply hs)

/-- C3: for every demand row `d`, the number of available (matched)
certificates is at most the size of `d`'s own certificate array and at most
the total supply count, and the total equals the available count exactly when
every matching certificate is carried by exactly one supply representative
(assuming the stored invariant that certificate arrays hold no duplicates). -/
theorem C3_matching_bounds (rs : List ListingRecord) (d : ListingRecord)
    (hnd : ∀ r ∈ rs, r.splitCertificates.Nodup) :
    available_certificates_count rs d ≤ d.splitCertificates.length
    ∧ available_certificates_count rs d ≤ total_supply_count rs d
    ∧ (total_supply_count rs d = available_certificates_count rs d ↔
        ∀ c ∈ matchingCerts rs d, supplyRepsCarrying rs c = 1) := by
  have hsub : matchingCerts rs d ⊆ d.splitCertificates := by
    intro c hc
    have := (List.mem_filter.1 hc).2
    simpa using this
  have hnodup : (matchingCerts rs d).Nodup :=
    List.Nodup.filter _ (List.nodup_dedup _)
  have hone : ∀ c ∈ matchingCerts rs d, 1 ≤ supply_count rs c := by
    intro c hc
    have hmem : c ∈ allSupplyCerts rs :=
      List.mem_dedup.1 (List.mem_filter.1 hc).1
    exact List.count_pos_iff.2 hmem
  have hsum := length_le_sum_map (supply_count rs) (matchingCerts rs d) hone
  refine ⟨?_, ?_, ?_⟩
  · exact (List.subperm_of_subset hnodup hsub).length_le
  · exact hsum.1
  · rw [show total_supply_count rs d = ((matchingCerts rs d).map (supply_count rs)).sum from rfl]
    rw [show available_certificates_count rs d = (matchingCerts rs d).length from rfl]
    rw [hsum.2]
    constructor
    · intro hall c hc
      rw [← supply_count_eq_reps hnd c]
      exact hall c hc
    · intro hall c hc
      rw [supply_count_eq_reps hnd c]
      exact hall c hc

/-- Scenario 2 supply record carrying only "B证". -/
def recSup1 : ListingRecord :=
  { originalInfo := "s1", memberId := "p1", type := "出",
    splitCertificates := ["B证"], createdAt := 1 }

/-- Scenario 2 supply record carrying "B证" and "一级市政". -/
def recSup2 : ListingRecord :=
  { originalInfo := "s2", memberId := "p2", type := "出",
    splitCertificates := ["B证", "一级市政"], createdAt := 1 }

/-- Scenario 2 demand record with tag set {"B证"}. -/
def recDem : ListingRecord :=
  { originalInfo := "d", memberId := "q", type := "收",
    splitCertificates := ["B证"], createdAt := 1 }

theorem C3_witness :
    available_certificates_count [recSup1, recSup2] recDem ≤
        recDem.splitCertificates.length
    ∧ available_certificates_count [recSup1, recSup2] recDem ≤
        total_supply_count [recSup1, recSup2] recDem
    ∧ available_certificates_count [recSup1, recSup2] recDem = 1
    ∧ total_supply_count [recSup1, recSup2] recDem = 2
    ∧ matchingCerts [recSup1, recSup2] recDem = ["B证"] := by
  have h := C3_matching_bounds [recSup1, recSup2] recDem (by decide)
  exact ⟨h.1, h.2.1, by decide, by decide, by decide⟩

/-- `ROUND(x, 2)` of PostgreSQL numeric: round to two decimal places, halves
away from zero; every value passed here is nonnegative, where this equals
`⌊q · 100 + 1/2⌋ / 100`. -/
def round2 (q : ℚ) : ℚ := ((⌊q * 100 + 1 / 2⌋ : ℤ) : ℚ) / 100

/-- `send_receive_ratio_percent` of `certificate_match_stats`:
`CASE WHEN receive_count > 0 THEN ROUND(send_count * 100.0 / receive_count, 2)
ELSE 0 END`. -/
def send_receive_ratio_percent (receive_count send_count : Nat) : ℚ :=
  if 0 < receive_count
  then round2 ((send_count : ℚ) * 100 / (receive_count : ℚ))
  else 0

/-- The ratio formula as the spec words it:
`round(sendCount / max(receiveCount, 1) × 100, 2)`; declared separately so the
code's definition can be compared against the claim. -/
def ratioSpecFormula (receive_count send_count : Nat) : ℚ :=
  round2 ((send_count : ℚ) / ((max receive_count 1 : Nat) : ℚ) * 100)

/-- C4 counterexample: for a tag with `receiveCount = 0` and `sendCount = 1`
the code returns 0 (explicit `ELSE 0` branch), while the claimed formula
`round(send / max(receive, 1) × 100, 2)` gives 100. -/
theorem C4_counterexample :
    send_receive_ratio_percent 0 1 = 0
    ∧ ratioSpecFormula 0 1 = 100
    ∧ send_receive_ratio_percent 0 1 ≠ ratioSpecFormula 0 1 := by
  have h1 : send_receive_ratio_percent 0 1 = 0 := by simp [send_receive_ratio_percent]
  have h2 : ratioSpecFormula 0 1 = 100 := by norm_num [ratioSpecFormula, round2]
  refine ⟨h1, h2, ?_⟩
  rw [h1, h2]
  norm_num

/-- C4 amended: the ratio equals `round(send / max(receive, 1) × 100, 2)` only
when `receiveCount > 0`; when `receiveCount = 0` the code returns 0 instead.
A tag with `receiveCount = 3`, `sendCount = 6` has ratio 200. -/
theorem C4_ratio (r s : Nat) (h : 0 < r) :
    send_receive_ratio_percent r s = ratioSpecFormula r s
    ∧ send_receive_ratio_percent 0 s = 0
    ∧ send_receive_ratio_percent 3 6 = 200 := by
  refine ⟨?_, by simp [send_receive_ratio_percent],
    by norm_num [send_receive_ratio_percent, round2]⟩
  unfold send_receive_ratio_percent ratioSpecFormula
  rw [if_pos h, Nat.max_eq_left h]
  congr 1
  ring

theorem C4_witness :
    send_receive_ratio_percent 3 6 = ratioSpecFormula 3 6
    ∧ send_receive_ratio_percent 3 6 = 200 :=
  ⟨(C4_ratio 3 6 (by decide)).1, (C4_ratio 3 6 (by decide)).2.2⟩

/-- `match_level` of the final select of the aggregate match statistics:
`CASE WHEN send_count >= receive_count * 2 THEN '高匹配度' WHEN send_count >=
receive_count THEN '中匹配度' WHEN send_count > 0 THEN '低匹配度' ELSE '无匹配'
END` ("high" / "medium" / "low" / "none"). -/
def match_level (receive_count send_count : Nat) : String :=
  if send_count ≥ receive_count * 2 then "高匹配度"
  else if send_count ≥ receive_count then "中匹配度"
  else if send_count > 0 then "低匹配度"
  else "无匹配"

/-- C5: the match level is "high" (高匹配度) when `send ≥ 2 × receive`, else
"medium" (中匹配度) when `send ≥ receive`, "low" (低匹配度) when
`0 < send < receive`, and "none" (无匹配) when `send = 0` (and a prior branch
does not fire, i.e. `receive > 0`); (3, 6) is high and (5, 0) is none. -/
theorem C5_match_level (r s : Nat) :
    (2 * r ≤ s → match_level r s = "高匹配度")
    ∧ (s < 2 * r → r ≤ s → match_level r s = "中匹配度")
    ∧ (0 < s → s < r → match_level r s = "低匹配度")
    ∧ (s = 0 → 0 < r → match_level r s = "无匹配")
    ∧ match_level 3 6 = "高匹配度"
    ∧ match_level 5 0 = "无匹配" := by
  refine ⟨?_, ?_, ?_, ?_, by decide, by decide⟩
  · intro h
    unfold match_level
    rw [if_pos (by omega)]
  · intro h1 h2
    unfold match_level
    rw [if_neg (by omega), if_pos (by omega)]
  · intro h1 h2
    unfold match_level
    rw [if_neg (by omega), if_neg (by omega), if_pos (by omega)]
  · intro h1 h2
    unfold match_level
    rw [if_neg (by omega), if_neg (by omega), if_neg (by omega)]

theorem C5_witness :
    match_level 3 6 = "高匹配度" ∧ match_level 5 0 = "无匹配" :=
  ⟨(C5_match_level 3 6).1 (by decide), (C5_match_level 5 0).2.2.2.1 rfl (by decide)⟩

/-- One row of `certificate_match_stats`: a certificate with its demand-side
and supply-side occurrence counts (`COALESCE(..., 0)` for an absent side). -/
structure TagStat where
  certificate_name : String
  receive_count : Nat
  send_count : Nat
deriving DecidableEq

/-- `match_strength_score = receive_count * send_count`. -/
def match_strength_score (t : TagStat) : Nat :=
  t.receive_count * t.send_count

/-- The leading RANK() sort key:
`CASE WHEN send_count > 0 THEN 1 ELSE 2 END`. -/
def sendGroup (t : TagStat) : Nat :=
  if 0 < t.send_count then 1 else 2

/-- Row `u` sorts strictly ahead of row `t` under `ORDER BY
CASE WHEN send_count > 0 THEN 1 ELSE 2 END, match_strength_score DESC`. -/
def rankAhead (u t : TagStat) : Bool :=
  decide (sendGroup u < sendGroup t) ||
    (decide (sendGroup u = sendGroup t) &&
      decide (match_strength_score t < match_strength_score u))

/-- SQL `RANK()`: one plus the number of rows strictly ahead in the ordering;
tied keys share a value and the next distinct key resumes at
(rows strictly ahead) + 1. -/
def popularity_rank (L : List TagStat) (t : TagStat) : Nat :=
  1 + L.countP fun u => rankAhead u t

/-- `receive_certificates` of the aggregate statistics query: demand rows with
a non-empty certificate array, deduplicated by fingerprint. -/
def receive_certificates (rs : List ListingRecord) : List ListingRecord :=
  (dedupe (rs.filter fun r => isDemandType r.type && !r.splitCertificates.isEmpty)).map Prod.fst

/-- All certificate occurrences on the demand side
(`CROSS JOIN unnest(split_certificates)`). -/
def allReceiveCerts (rs : List ListingRecord) : List String :=
  (receive_certificates rs).flatMap fun s => s.splitCertificates

/-- `certificate_match_stats`: one row per certificate occurring on either
side (the FULL OUTER JOIN of the per-certificate demand and supply counts);
the supply side (`send_certificates`) uses the same filter and deduplication
as `supply_messages`, so its occurrence list is `allSupplyCerts`. -/
def certificate_match_stats (rs : List ListingRecord) : List TagStat :=
  ((allReceiveCerts rs ++ allSupplyCerts rs).dedup).map fun c =>
    { certificate_name := c,
      receive_count := (allReceiveCerts rs).count c,
      send_count := (allSupplyCerts rs).count c }

theorem rankAhead_iff {u t : TagStat} :
    rankAhead u t = true ↔
      (sendGroup u < sendGroup t ∨
        (sendGroup u = sendGroup t ∧ match_strength_score t < match_strength_score u)) := by
  simp [rankAhead]

theorem rankAhead_self (t : TagStat) : rankAhead t t = false := by
  simp [rankAhead]

theorem sendGroup_pos {t : TagStat} (h : 0 < t.send_count) : sendGroup t = 1 := by
  simp [sendGroup, h]

theorem sendGroup_zero {t : TagStat} (h : t.send_count = 0) : sendGroup t = 2 := by
  simp [sendGroup, h]

theorem countP_le_countP {α : Type} {p q : α → Bool}
    (h : ∀ x, p x = true → q x = true) : ∀ L : List α, L.countP p ≤ L.countP q := by
  intro L
  induction L with
  | nil => simp
  | cons a t ih =>
    rw [List.countP_cons, List.countP_cons]
    by_cases hp : p a = true
    · rw [if_pos hp, if_pos (h a hp)]
      omega
    · rw [if_neg hp]
      split <;> omega

theorem countP_lt_countP {α : Type} {p q : α → Bool} {a : α} :
    ∀ {L : List α}, a ∈ L → (∀ x, p x = true → q x = true) →
      p a = false → q a = true → L.countP p < L.countP q := by
  intro L
  induction L with
  | nil => intro hmem; exact absurd hmem (List.not_mem_nil a)
  | cons b t ih =>
    intro hmem h hpa hqa
    rw [List.countP_cons, List.countP_cons]
    rcases List.mem_cons.1 hmem with rfl | hmem
    · rw [if_neg (by simp [hpa]), if_pos hqa]
      have := countP_le_countP h t
      omega
    · have hlt := ih hmem h hpa hqa
      have hle : (if p b = true then 1 else 0) ≤ (if q b = true then 1 else 0) := by
        by_cases hp : p b = true
        · rw [if_pos hp, if_pos (h b hp)]
        · rw [if_neg hp]
          split <;> omega
      omega

/-- C6: in the aggregate tag statistics, a tag with supply listings ranks
strictly ahead of every tag without any; among tags with supply listings a
strictly larger match-strength score means a rank at most as large; rows with
equal keys share one rank value, and a rank is one plus the number of rows
strictly ahead (SQL RANK semantics). -/
theorem C6_popularity_rank (rs : List ListingRecord) (t1 t2 : TagStat)
    (h1 : t1 ∈ certificate_match_stats rs) :
    (0 < t1.send_count → t2.send_count = 0 →
        popularity_rank (certificate_match_stats rs) t1 <
          popularity_rank (certificate_match_stats rs) t2)
    ∧ (0 < t1.send_count → 0 < t2.send_count →
        match_strength_score t2 < match_strength_score t1 →
        popularity_rank (certificate_match_stats rs) t1 ≤
          popularity_rank (certificate_match_stats rs) t2)
    ∧ (sendGroup t1 = sendGroup t2 → match_strength_score t1 = match_strength_score t2 →
        popularity_rank (certificate_match_stats rs) t1 =
          popularity_rank (certificate_match_stats rs) t2)
    ∧ popularity_rank (certificate_match_stats rs) t2 =
        1 + (certificate_match_stats rs).countP fun u => rankAhead u t2 := by
  refine ⟨?_, ?_, ?_, rfl⟩
  · intro hs1 hs2
    have hg1 := sendGroup_pos hs1
    have hg2 := sendGroup_zero hs2
    have himp : ∀ x, rankAhead x t1 = true → rankAhead x t2 = true := by
      intro x hx
      rcases rankAhead_iff.1 hx with hlt | ⟨heq, _⟩
      · exact rankAhead_iff.2 (Or.inl (by omega))
      · exact rankAhead_iff.2 (Or.inl (by omega))
    have hq : rankAhead t1 t2 = true :=
      rankAhead_iff.2 (Or.inl (by omega))
    have := countP_lt_countP h1 himp (rankAhead_self t1) hq
    unfold popularity_rank
    omega
  · intro hs1 hs2 hscore
    have hg1 := sendGroup_pos hs1
    have hg2 := sendGroup_pos hs2
    have himp : ∀ x, rankAhead x t1 = true → rankAhead x t2 = true := by
      intro x hx
      rcases rankAhead_iff.1 hx with hlt | ⟨heq, hsc⟩
      · exact rankAhead_iff.2 (Or.inl (by omega))
      · exact rankAhead_iff.2 (Or.inr ⟨by omega, by omega⟩)
    have := countP_le_countP himp (certificate_match_stats rs)
    unfold popularity_rank
    omega
  · intro hg hs
    have hfun : (fun u => rankAhead u t1) = fun u => rankAhead u t2 := by
      funext u
      unfold rankAhead
      rw [hg, hs]
    unfold popularity_rank
    rw [hfun]

/-- Demand record carrying certificate "A". -/
def recRA : ListingRecord :=
  { originalInfo := "rA", memberId := "w1", type := "收",
    splitCertificates := ["A"], createdAt := 1 }

/-- Supply record carrying certificate "A". -/
def recSA : ListingRecord :=
  { originalInfo := "sA", memberId := "w2", type := "出",
    splitCertificates := ["A"], createdAt := 1 }

/-- Demand record carrying certificate "B" (no supply exists for "B"). -/
def recRB : ListingRecord :=
  { originalInfo := "rB", memberId := "w3", type := "收",
    splitCertificates := ["B"], createdAt := 1 }

/-- The stats row for "A" in the witness data set. -/
def statA : TagStat :=
  { certificate_name := "A", receive_count := 1, send_count := 1 }

/-- The stats row for "B" in the witness data set. -/
def statB : TagStat :=
  { certificate_name := "B", receive_count := 1, send_count := 0 }

theorem C6_witness :
    popularity_rank (certificate_match_stats [recRA, recSA, recRB]) statA <
      popularity_rank (certificate_match_stats [recRA, recSA, recRB]) statB :=
  (C6_popularity_rank [recRA, recSA, recRB] statA statB (by decide)).1
    (by decide) (by decide)

/-- The trending-tags query of the tags route: unnest `split_certificates`
over the raw `wechat_messages` rows that have a non-empty array, group by
certificate, count rows per certificate.  The query contains no
deduplication step. -/
def tagFrequency (rs : List ListingRecord) (c : String) : Nat :=
  ((rs.filter fun r => !r.splitCertificates.isEmpty).flatMap
    fun r => r.splitCertificates).count c

/-- A listing carrying "B证", posted at timestamp 1. -/
def recT1 : ListingRecord :=
  { originalInfo := "T", memberId := "m", type := "收",
    splitCertificates := ["B证"], createdAt := 1 }

/-- The same listing re-posted by the same poster at timestamp 2. -/
def recT2 : ListingRecord :=
  { originalInfo := "T", memberId := "m", type := "收",
    splitCertificates := ["B证"], createdAt := 2 }

/-- C7 counterexample: `recT1`/`recT2` form one fingerprint equivalence class,
yet the tag-frequency query counts "B证" twice — a re-posted listing increases
the reported count, so the query does not operate over the deduplicated
representative set. -/
theorem C7_counterexample :
    fingerprint recT1 = fingerprint recT2
    ∧ tagFrequency [recT1] "B证" = 1
    ∧ tagFrequency [recT1, recT2] "B证" = 2
    ∧ ¬ tagFrequency [recT1, recT2] "B证" ≤ 1 := by
  refine ⟨by decide, by decide, by decide, by decide⟩

/-- C7 amended: the tag-frequency query counts over the raw record set, not
the deduplicated representatives: every record with a non-empty certificate
array contributes its own tag occurrences, so each additional re-posting of a
listing increments its tags' counts again. -/
theorem C7_tag_frequency_raw (rs : List ListingRecord) (r : ListingRecord) (c : String) :
    tagFrequency (r :: rs) c =
      (if r.splitCertificates.isEmpty then 0 else r.splitCertificates.count c)
        + tagFrequency rs c := by
  unfold tagFrequency
  rw [List.filter_cons]
  cases h : r.splitCertificates.isEmpty with
  | true =>
    rw [if_neg (by simp [h]), if_pos rfl]
    omega
  | false =>
    rw [if_pos (by simp [h]), if_neg (by simp), List.flatMap_cons, List.count_append]

/-- Parameter handling of the messages route:
`take: limit ? parseInt(limit) : 100, skip: offset ? parseInt(offset) : 0`,
passed to `prisma.wechatMessage.findMany`.  The route has no validation
branch, so the resolution always succeeds with the raw values; the `Except`
models the error channel the spec demands, which the code never uses. -/
def resolveTakeSkip (limit offset : Option Int) : Except String (Int × Int) :=
  Except.ok (limit.getD 100, offset.getD 0)

/-- Limit handling of the tags route:
`parseInt(searchParams.get('limit') || '50')`, used as the SQL `LIMIT`. -/
def tagsLimit (limit : Option Int) : Int :=
  limit.getD 50

/-- C9 counterexample: a negative limit is not rejected: the messages route
resolves take/skip to `(-5, 0)` and proceeds (an `ok` result, not an error),
and the tags route uses the negative limit as given. -/
theorem C9_counterexample :
    resolveTakeSkip (some (-5)) none = Except.ok (-5, 0)
    ∧ tagsLimit (some (-5)) = -5 :=
  ⟨rfl, rfl⟩

/-- C9 amended: limit/offset values, negative ones included, are passed
through unvalidated: the routes never raise a parameter error and hand the
raw values to the data layer; absent parameters default to 100/0 (messages
route) and 50 (tags route). -/
theorem C9_no_validation (l o : Int) :
    resolveTakeSkip (some l) (some o) = Except.ok (l, o)
    ∧ resolveTakeSkip none none = Except.ok (100, 0)
    ∧ tagsLimit (some l) = l
    ∧ tagsLimit none = 50 :=
  ⟨rfl, rfl, rfl, rfl⟩

end Wccc
